import Mathlib

/-!
# Verification of the chunking + retrieval-evaluation pipeline

Shallow embedding of the evaluation metrics engine
(src/evaluation/evaluate.py), the semantic chunker
(src/feature_extraction/ingest_semantic.py), the paragraph-merge chunker
(src/feature_extraction/ingest_paragraph.py) and the result aggregator
(src/evaluation/aggregate_results.py).

Modelling conventions:
* Python floats are modelled as exact rationals, except for the NDCG
  computation, which uses np.log2 and is therefore modelled over the reals.
* The SentenceTransformer embedding model and the torch cosine-similarity
  kernel used by the relevance judge are external collaborators; the judge is
  parametrised by the composite similarity function
  sim : String -> String -> Q wherever the source passes embedding_model.
* The Groq chat-completion client is an external collaborator; it is
  modelled as a function from the prompt to Option String, where none models
  the call raising an exception (the except branch of the source).
* nltk.sent_tokenize and model.encode inside the semantic chunker are
  external collaborators (NLTK Punkt and SentenceTransformer); the chunker is
  embedded from the point where the sentence list and the per-sentence
  embedding vectors are in hand, as a list of (sentence, vector) pairs.
-/

/-- A retrieved chunk as consumed by the metric engine: the metric functions
only ever read its text field (chunk['text'] in evaluate.py). -/
structure Chunk where
  text : String
deriving DecidableEq, Repr

/-- One record of the ground-truth file, restricted to the field the
retrieval metric engine reads (gt['relevant_chunks']). -/
structure GroundTruth where
  relevant_chunks : List String
deriving DecidableEq, Repr

/-- One per-query system response, restricted to the field the retrieval
metric engine reads (result.get('retrieved_chunks', [])). -/
structure SystemResponse where
  retrieved_chunks : List Chunk
deriving DecidableEq, Repr

/-- evaluate.py, is_relevant_chunk: embeds the candidate and each
ground-truth chunk and returns True as soon as one cosine similarity is at
or above the threshold.  The embedding model plus util.cos_sim is the
abstract similarity function `sim`. -/
def is_relevant_chunk (sim : String → String → ℚ) (threshold : ℚ)
    (retrieved_chunk_text : String) (ground_truth_chunks : List String) : Bool :=
  ground_truth_chunks.any (fun gt_chunk => threshold ≤ sim retrieved_chunk_text gt_chunk)

/-- evaluate.py, calculate_hit_rate: one hit per query whose top-k retrieved
list contains some chunk judged relevant; `hits / len(results)` with the
`if results else 0.0` guard. -/
def calculate_hit_rate (sim : String → String → ℚ) (threshold : ℚ)
    (results : List SystemResponse) (ground_truths : List GroundTruth) (top_k : ℕ) : ℚ :=
  let hits := (results.zip ground_truths).countP (fun rg =>
    (rg.1.retrieved_chunks.take top_k).any (fun chunk =>
      is_relevant_chunk sim threshold chunk.text rg.2.relevant_chunks))
  if results.isEmpty then 0 else (hits : ℚ) / (results.length : ℚ)

/-- The loop body of calculate_recall: one recall value per zipped
(result, gt) pair, skipping pairs whose ground-truth chunk list is empty
(the `continue`). -/
def recallsList (sim : String → String → ℚ) (threshold : ℚ) (top_k : ℕ) :
    List (SystemResponse × GroundTruth) → List ℚ
  | [] => []
  | (result, gt) :: rest =>
    let gt_chunks := gt.relevant_chunks
    if gt_chunks.isEmpty then recallsList sim threshold top_k rest
    else
      let relevant_found := (result.retrieved_chunks.take top_k).countP (fun chunk =>
        is_relevant_chunk sim threshold chunk.text gt_chunks)
      ((relevant_found : ℚ) / (gt_chunks.length : ℚ)) :: recallsList sim threshold top_k rest

/-- evaluate.py, calculate_recall: mean of the per-query recalls with the
`if recalls else 0.0` guard. -/
def calculate_recall (sim : String → String → ℚ) (threshold : ℚ)
    (results : List SystemResponse) (ground_truths : List GroundTruth) (top_k : ℕ) : ℚ :=
  let recalls := recallsList sim threshold top_k (results.zip ground_truths)
  if recalls.isEmpty then 0 else recalls.sum / (recalls.length : ℚ)

/-- The binary relevance list of one query: 1 for a retrieved chunk judged
relevant, 0 otherwise, over the top-k retrieved chunks. -/
def relevanceScores (sim : String → String → ℚ) (threshold : ℚ) (top_k : ℕ)
    (result : SystemResponse) (gt : GroundTruth) : List ℕ :=
  (result.retrieved_chunks.take top_k).map (fun chunk =>
    if is_relevant_chunk sim threshold chunk.text gt.relevant_chunks then 1 else 0)

/-- Models `sum(rel / np.log2(idx + 2) for idx, rel in enumerate(scores))`, with the
enumeration starting at `idx`.  np.log2 is modelled by Real.logb 2. -/
noncomputable def dcgSum : List ℕ → ℕ → ℝ
  | [], _ => 0
  | rel :: rest, idx => (rel : ℝ) / Real.logb 2 ((idx : ℝ) + 2) + dcgSum rest (idx + 1)

open Classical in
/-- The per-query body of calculate_ndcg: 0.0 when the relevance list is
empty or sums to 0; otherwise DCG over the relevance list divided by DCG
over the descending-sorted relevance list, guarded by `if idcg > 0`. -/
noncomputable def ndcgForQuery (sim : String → String → ℚ) (threshold : ℚ) (top_k : ℕ)
    (result : SystemResponse) (gt : GroundTruth) : ℝ :=
  let relevance_scores := relevanceScores sim threshold top_k result gt
  if relevance_scores = [] ∨ relevance_scores.sum = 0 then 0
  else
    let dcg := dcgSum relevance_scores 0
    let ideal_relevances := List.insertionSort (· ≥ ·) relevance_scores
    let idcg := dcgSum ideal_relevances 0
    if 0 < idcg then dcg / idcg else 0

/-- evaluate.py, calculate_ndcg: mean of the per-query NDCG scores with the
`if ndcg_scores else 0.0` guard. -/
noncomputable def calculate_ndcg (sim : String → String → ℚ) (threshold : ℚ)
    (results : List SystemResponse) (ground_truths : List GroundTruth) (top_k : ℕ) : ℝ :=
  let ndcg_scores := (results.zip ground_truths).map (fun rg =>
    ndcgForQuery sim threshold top_k rg.1 rg.2)
  if ndcg_scores.isEmpty then 0 else ndcg_scores.sum / (ndcg_scores.length : ℝ)

/-- The loop body of calculate_mrr: walk the retrieved chunks with a 1-based
rank and return the reciprocal of the rank of the first relevant chunk
(the `break`), or 0.0 when none is relevant. -/
def reciprocalRank (sim : String → String → ℚ) (threshold : ℚ)
    (gt_chunks : List String) : List Chunk → ℕ → ℚ
  | [], _ => 0
  | chunk :: rest, rank =>
    if is_relevant_chunk sim threshold chunk.text gt_chunks then 1 / (rank : ℚ)
    else reciprocalRank sim threshold gt_chunks rest (rank + 1)

/-- evaluate.py, calculate_mrr: mean of the per-query reciprocal ranks with
the `if rr_scores else 0.0` guard. -/
def calculate_mrr (sim : String → String → ℚ) (threshold : ℚ)
    (results : List SystemResponse) (ground_truths : List GroundTruth) (top_k : ℕ) : ℚ :=
  let rr_scores := (results.zip ground_truths).map (fun rg =>
    reciprocalRank sim threshold rg.2.relevant_chunks (rg.1.retrieved_chunks.take top_k) 1)
  if rr_scores.isEmpty then 0 else rr_scores.sum / (rr_scores.length : ℚ)

/-- The inner loop of calculate_map: accumulate precision-at-rank at every
relevant hit, tracking the 1-based rank and the running relevant count. -/
def averagePrecisionSum (sim : String → String → ℚ) (threshold : ℚ)
    (gt_chunks : List String) : List Chunk → ℕ → ℕ → ℚ → ℚ
  | [], _, _, precision_sum => precision_sum
  | chunk :: rest, rank, relevant_count, precision_sum =>
    if is_relevant_chunk sim threshold chunk.text gt_chunks then
      averagePrecisionSum sim threshold gt_chunks rest (rank + 1) (relevant_count + 1)
        (precision_sum + ((relevant_count : ℚ) + 1) / (rank : ℚ))
    else
      averagePrecisionSum sim threshold gt_chunks rest (rank + 1) relevant_count precision_sum

/-- The loop body of calculate_map: one average precision per zipped pair,
skipping pairs with empty ground truth (the `continue`); the source's inner
`if gt_chunks else 0.0` guard is kept although the skip makes it dead. -/
def apScoresList (sim : String → String → ℚ) (threshold : ℚ) (top_k : ℕ) :
    List (SystemResponse × GroundTruth) → List ℚ
  | [] => []
  | (result, gt) :: rest =>
    let gt_chunks := gt.relevant_chunks
    if gt_chunks.isEmpty then apScoresList sim threshold top_k rest
    else
      let precision_sum :=
        averagePrecisionSum sim threshold gt_chunks (result.retrieved_chunks.take top_k) 1 0 0
      let ap := if gt_chunks.isEmpty then 0 else precision_sum / (gt_chunks.length : ℚ)
      ap :: apScoresList sim threshold top_k rest

/-- evaluate.py, calculate_map: mean of the per-query average precisions
with the `if ap_scores else 0.0` guard. -/
def calculate_map (sim : String → String → ℚ) (threshold : ℚ)
    (results : List SystemResponse) (ground_truths : List GroundTruth) (top_k : ℕ) : ℚ :=
  let ap_scores := apScoresList sim threshold top_k (results.zip ground_truths)
  if ap_scores.isEmpty then 0 else ap_scores.sum / (ap_scores.length : ℚ)

/-- Python substring test `needle in hay` on strings. -/
def containsSubstr (hay needle : String) : Bool :=
  decide ( List.IsInfix needle.toList hay.toList)

/-- Case-insensitive whitespace token set of a string: models
`set(text.lower().split())`.  Python str.split() with no argument splits on
whitespace runs and drops empty fields, which equals splitting at every
whitespace character and discarding empty pieces. -/
def tokenSet (text : String) : Finset String :=
  ((text.toLower.split (fun c => c.isWhitespace)).filter (fun t => !t.isEmpty)).toFinset

/-- evaluate.py, calculate_f1_score: precision and recall of the
case-insensitive whitespace-token sets, combined by the harmonic mean, with
the two zero guards of the source. -/
def calculate_f1_score (generated reference : String) : ℚ :=
  let gen_tokens := tokenSet generated
  let ref_tokens := tokenSet reference
  let common := gen_tokens ∩ ref_tokens
  if gen_tokens.card = 0 ∨ ref_tokens.card = 0 then 0
  else
    let precision : ℚ := (common.card : ℚ) / (gen_tokens.card : ℚ)
    -- the source calls this local `recall`; that word is a command keyword here
    let recall_score : ℚ := (common.card : ℚ) / (ref_tokens.card : ℚ)
    if precision + recall_score = 0 then 0
    else 2 * (precision * recall_score) / (precision + recall_score)

/-- evaluate.py, estimate_cost, inner helper: `len(text) / 4`. -/
def estimate_tokens (text : String) : ℚ := (text.length : ℚ) / 4

/-- evaluate.py, estimate_cost: context tokens priced at $0.05 per million,
answer tokens at $0.08 per million. -/
def estimate_cost (answer : String) (chunks : List Chunk) : ℚ :=
  let context_tokens := (chunks.map (fun chunk => estimate_tokens chunk.text)).sum
  let answer_tokens := estimate_tokens answer
  let input_cost := (context_tokens / 1000000) * (5 / 100)
  let output_cost := (answer_tokens / 1000000) * (8 / 100)
  input_cost + output_cost

/-- evaluate.py, calculate_key_facts_coverage: fraction of key facts that
occur as a case-insensitive substring of the answer, with the
`if key_facts else 0.0` guard. -/
def calculate_key_facts_coverage (answer : String) (key_facts : List String) : ℚ :=
  let generated_lower := answer.toLower
  let facts_present := key_facts.countP (fun key_fact =>
    containsSubstr generated_lower key_fact.toLower)
  if key_facts.isEmpty then 0 else (facts_present : ℚ) / (key_facts.length : ℚ)

/-- The prompt f-string built by calculate_faithfulness, with the retrieved
chunk texts joined by newlines. -/
def faithfulnessPrompt (answer : String) (chunks : List Chunk) : String :=
  let context := String.intercalate "\n" (chunks.map Chunk.text)
  "Context: " ++ context ++ "\n\nAnswer: " ++ answer ++
    "\n\nIs the answer factually consistent with and supported by the context? \n" ++
    "Consider:\n- Are all facts in the answer present in the context?\n" ++
    "- Does the answer contradict the context?\n" ++
    "- Does the answer add information not in the context?\n\nAnswer only: YES or NO"

/-- evaluate.py, calculate_faithfulness: ask the judging collaborator and map
the reply to 1.0 when it contains YES after strip/upper, 0.0 otherwise; the
`except: return None` branch is the collaborator returning none. -/
def calculate_faithfulness (groq_client : String → Option String)
    (answer : String) (chunks : List Chunk) : Option ℚ :=
  match groq_client (faithfulnessPrompt answer chunks) with
  | none => none
  | some reply =>
    let answer_text := reply.trim.toUpper
    some (if containsSubstr answer_text "YES" then 1 else 0)

/-- The prompt f-string built by calculate_context_recall. -/
def contextRecallPrompt (query : String) (chunks : List Chunk)
    (ground_truth_answer : String) : String :=
  let context := String.intercalate "\n" (chunks.map Chunk.text)
  "Question: " ++ query ++ "\n\nRetrieved Context: " ++ context ++
    "\n\nGround Truth Answer: " ++ ground_truth_answer ++
    "\n\nCan the ground truth answer be fully generated using only the information " ++
    "in the retrieved context?\n\nAnswer only: YES or NO"

/-- evaluate.py, calculate_context_recall: same yes/no judging pattern and
the same `except: return None` policy as faithfulness. -/
def calculate_context_recall (groq_client : String → Option String)
    (query : String) (chunks : List Chunk) (ground_truth_answer : String) : Option ℚ :=
  match groq_client (contextRecallPrompt query chunks ground_truth_answer) with
  | none => none
  | some reply =>
    let answer_text := reply.trim.toUpper
    some (if containsSubstr answer_text "YES" then 1 else 0)

/-- evaluate.py, calculate_answer_relevance: cosine similarity between the
query embedding and the answer embedding, via the abstract similarity. -/
def calculate_answer_relevance (sim : String → String → ℚ)
    (answer query : String) : ℚ :=
  sim query answer

/-- evaluate.py, calculate_answer_correctness: returns
(0.5 * f1 + 0.5 * semantic_sim, f1, semantic_sim). -/
def calculate_answer_correctness (sim : String → String → ℚ)
    (generated_answer ground_truth_answer : String) : ℚ × ℚ × ℚ :=
  let f1 := calculate_f1_score generated_answer ground_truth_answer
  let semantic_sim := sim generated_answer ground_truth_answer
  (5 / 10 * f1 + 5 / 10 * semantic_sim, f1, semantic_sim)

/-- Models `round(x, 3)`.  Python rounds half to even while `round` here rounds half
away from the lower integer; no theorem relies on the value at a tie. -/
def round3 (x : ℚ) : ℚ := ((round (x * 1000) : ℤ) : ℚ) / 1000

/-- Models `round(x, 2)`. -/
def round2 (x : ℚ) : ℚ := ((round (x * 100) : ℤ) : ℚ) / 100

/-- Models `round(x, 6)`. -/
def round6 (x : ℚ) : ℚ := ((round (x * 1000000) : ℤ) : ℚ) / 1000000

/-- One (result, gt) pair as consumed by the generator-metrics loop of
evaluate.py main: the generated answer and retrieved chunks of the system
response together with the query and key facts of the ground truth. -/
structure GenItem where
  generated_answer : String
  retrieved_chunks : List Chunk
  query : String
  key_facts : List String

/-- The generator-metrics loop of main (lines 416-431): per query, append
the faithfulness score only when the judging call succeeded, and always
append the key-fact coverage and the answer relevance. -/
def generatorLoop (groq_client : String → Option String) (sim : String → String → ℚ) :
    List GenItem → List ℚ × List ℚ × List ℚ
  | [] => ([], [], [])
  | item :: rest =>
    let (faithfulness_scores, coverage_scores, relevance_scores) :=
      generatorLoop groq_client sim rest
    let faithfulness_scores' :=
      match calculate_faithfulness groq_client item.generated_answer item.retrieved_chunks with
      | some faith => faith :: faithfulness_scores
      | none => faithfulness_scores
    (faithfulness_scores',
     calculate_key_facts_coverage item.generated_answer item.key_facts :: coverage_scores,
     calculate_answer_relevance sim item.generated_answer item.query :: relevance_scores)

/-- The metrics_output['generator'] record of main. -/
structure GeneratorMetrics where
  avg_faithfulness : Option ℚ
  avg_key_facts_coverage : ℚ
  avg_answer_relevance : ℚ
deriving DecidableEq, Repr

/-- main, lines 433-437: averages of the three generator score lists;
avg_faithfulness is None (null in the artifact) when no query produced a
determinate faithfulness score. -/
def generatorMetrics (groq_client : String → Option String) (sim : String → String → ℚ)
    (items : List GenItem) : GeneratorMetrics :=
  let scores := generatorLoop groq_client sim items
  let faithfulness_scores := scores.1
  let coverage_scores := scores.2.1
  let relevance_scores := scores.2.2
  { avg_faithfulness :=
      if faithfulness_scores.isEmpty then none
      else some (round3 (faithfulness_scores.sum / (faithfulness_scores.length : ℚ)))
    avg_key_facts_coverage :=
      if coverage_scores.isEmpty then 0
      else round3 (coverage_scores.sum / (coverage_scores.length : ℚ))
    avg_answer_relevance :=
      if relevance_scores.isEmpty then 0
      else round3 (relevance_scores.sum / (relevance_scores.length : ℚ)) }

/-- One (result, gt) pair as consumed by the end_to_end loop of main. -/
structure E2EItem where
  generated_answer : String
  retrieved_chunks : List Chunk
  query : String
  expected_answer : String
  latency_ms : ℚ

/-- The end_to_end loop of main (lines 447-475): per query, append the
context-recall score only when the judging call succeeded, and always append
the answer correctness, the latency and the estimated cost. -/
def endToEndLoop (groq_client : String → Option String) (sim : String → String → ℚ) :
    List E2EItem → List ℚ × List ℚ × List ℚ × List ℚ
  | [] => ([], [], [], [])
  | item :: rest =>
    let (context_recall_scores, correctness_scores, latencies, costs) :=
      endToEndLoop groq_client sim rest
    let context_recall_scores' :=
      match calculate_context_recall groq_client item.query item.retrieved_chunks
          item.expected_answer with
      | some ctx_recall => ctx_recall :: context_recall_scores
      | none => context_recall_scores
    (context_recall_scores',
     (calculate_answer_correctness sim item.generated_answer item.expected_answer).1
       :: correctness_scores,
     item.latency_ms :: latencies,
     estimate_cost item.generated_answer item.retrieved_chunks :: costs)

/-- np.percentile with the default linear interpolation, over rationals. -/
def percentile (xs : List ℚ) (q : ℚ) : ℚ :=
  let sorted := List.insertionSort (· ≤ ·) xs
  if sorted.isEmpty then 0
  else
    let pos : ℚ := ((sorted.length : ℚ) - 1) * q / 100
    let lo : ℕ := Int.toNat ⌊pos⌋
    let frac : ℚ := pos - (⌊pos⌋ : ℚ)
    let a := sorted.getD lo 0
    let b := sorted.getD (lo + 1) a
    a + frac * (b - a)

/-- The metrics_output['end_to_end'] record of main. -/
structure EndToEndMetrics where
  avg_context_recall : Option ℚ
  avg_answer_correctness : ℚ
  avg_latency_ms : ℚ
  min_latency_ms : ℚ
  max_latency_ms : ℚ
  p95_latency_ms : ℚ
  p99_latency_ms : ℚ
  estimated_cost_per_query : ℚ
deriving DecidableEq, Repr

/-- main, lines 477-490: averages, extremes and percentiles of the
end-to-end score lists; avg_context_recall is None when no query produced a
determinate context-recall score. -/
def endToEndMetrics (groq_client : String → Option String) (sim : String → String → ℚ)
    (items : List E2EItem) : EndToEndMetrics :=
  let scores := endToEndLoop groq_client sim items
  let context_recall_scores := scores.1
  let correctness_scores := scores.2.1
  let latencies := scores.2.2.1
  let costs := scores.2.2.2
  { avg_context_recall :=
      if context_recall_scores.isEmpty then none
      else some (round3 (context_recall_scores.sum / (context_recall_scores.length : ℚ)))
    avg_answer_correctness :=
      if correctness_scores.isEmpty then 0
      else round3 (correctness_scores.sum / (correctness_scores.length : ℚ))
    avg_latency_ms :=
      if latencies.isEmpty then 0 else round2 (latencies.sum / (latencies.length : ℚ))
    min_latency_ms :=
      match latencies.min? with
      | some m => round2 m
      | none => 0
    max_latency_ms :=
      match latencies.max? with
      | some m => round2 m
      | none => 0
    p95_latency_ms := round2 (if latencies.isEmpty then 0 else percentile latencies 95)
    p99_latency_ms := round2 (if latencies.isEmpty then 0 else percentile latencies 99)
    estimated_cost_per_query :=
      if costs.isEmpty then 0 else round6 (costs.sum / (costs.length : ℚ)) }

/-- Python `sep.join(parts)`. -/
def joinSep (sep : String) : List String → String
  | [] => ""
  | [s] => s
  | s :: rest => s ++ sep ++ joinSep sep rest

/-- Models `np.dot` of two embedding vectors. -/
noncomputable def dotProduct (a b : List ℝ) : ℝ :=
  (List.zipWith (fun x y => x * y) a b).sum

/-- Models `np.dot(a, b) / (np.linalg.norm(a) * np.linalg.norm(b))`:
np.linalg.norm of a vector is the square root of its dot product with
itself. -/
noncomputable def cosineSimilarity (a b : List ℝ) : ℝ :=
  dotProduct a b / (Real.sqrt (dotProduct a a) * Real.sqrt (dotProduct b b))

/-- Models `np.mean([a, b], axis=0)`: the componentwise unweighted average of the
two vectors. -/
noncomputable def meanEmbedding (a b : List ℝ) : List ℝ :=
  List.zipWith (fun x y => (x + y) / 2) a b

open Classical in
/-- The sentence loop of ingest_semantic.py semantic_chunk_text
(lines 162-184), including the final append of the open chunk: state is the
remaining (sentence, embedding) pairs, the current chunk's sentences, and the
current chunk's running embedding. -/
noncomputable def semanticLoop (similarity_threshold : ℝ) (max_chunk_size : ℕ) :
    List (String × List ℝ) → List String → List ℝ → List String
  | [], current_chunk, _ => [joinSep " " current_chunk]
  | (sentence, sentence_embedding) :: rest, current_chunk, current_chunk_embedding =>
    let current_chunk_text := joinSep " " current_chunk
    let projected_length := current_chunk_text.length + sentence.length
    if similarity_threshold ≤ cosineSimilarity current_chunk_embedding sentence_embedding
        ∧ projected_length ≤ max_chunk_size then
      semanticLoop similarity_threshold max_chunk_size rest (current_chunk ++ [sentence])
        (meanEmbedding current_chunk_embedding sentence_embedding)
    else
      current_chunk_text ::
        semanticLoop similarity_threshold max_chunk_size rest [sentence] sentence_embedding

/-- ingest_semantic.py, semantic_chunk_text: empty sentence list gives no
chunks, a single sentence gives that one sentence, otherwise the greedy
similarity loop starting from the first sentence. -/
noncomputable def semantic_chunk_text (sentences : List (String × List ℝ))
    (similarity_threshold : ℝ) (max_chunk_size : ℕ) : List String :=
  match sentences with
  | [] => []
  | [single] => [single.1]
  | first :: rest => semanticLoop similarity_threshold max_chunk_size rest [first.1] first.2

open Classical in
/-- The chunker exactly as claim C3 words it: a sentence joins the current
chunk iff the similarity is at or above the threshold AND the chunk's text
AFTER appending the sentence (a space plus the sentence) would not exceed
max_chunk_size characters. -/
noncomputable def semanticChunkClaimLoop (similarity_threshold : ℝ) (max_chunk_size : ℕ) :
    List (String × List ℝ) → List String → List ℝ → List String
  | [], current_chunk, _ => [joinSep " " current_chunk]
  | (sentence, sentence_embedding) :: rest, current_chunk, current_chunk_embedding =>
    if similarity_threshold ≤ cosineSimilarity current_chunk_embedding sentence_embedding
        ∧ (joinSep " " (current_chunk ++ [sentence])).length ≤ max_chunk_size then
      semanticChunkClaimLoop similarity_threshold max_chunk_size rest
        (current_chunk ++ [sentence])
        (meanEmbedding current_chunk_embedding sentence_embedding)
    else
      joinSep " " current_chunk ::
        semanticChunkClaimLoop similarity_threshold max_chunk_size rest [sentence]
          sentence_embedding

/-- Claim C3 as stated, as a whole-input function. -/
noncomputable def semanticChunkClaim (sentences : List (String × List ℝ))
    (similarity_threshold : ℝ) (max_chunk_size : ℕ) : List String :=
  match sentences with
  | [] => []
  | first :: rest =>
    semanticChunkClaimLoop similarity_threshold max_chunk_size rest [first.1] first.2

open Classical in
/-- The amended claim C3: as the claim, except that the size test compares
the current chunk text length PLUS the bare sentence length (the joining
space is not counted) against max_chunk_size; stated uniformly, without the
source's special case for a single sentence. -/
noncomputable def semanticChunkAmendedLoop (similarity_threshold : ℝ) (max_chunk_size : ℕ) :
    List (String × List ℝ) → List String → List ℝ → List String
  | [], current_chunk, _ => [joinSep " " current_chunk]
  | (sentence, sentence_embedding) :: rest, current_chunk, current_chunk_embedding =>
    if similarity_threshold ≤ cosineSimilarity current_chunk_embedding sentence_embedding
        ∧ (joinSep " " current_chunk).length + sentence.length ≤ max_chunk_size then
      semanticChunkAmendedLoop similarity_threshold max_chunk_size rest
        (current_chunk ++ [sentence])
        (meanEmbedding current_chunk_embedding sentence_embedding)
    else
      joinSep " " current_chunk ::
        semanticChunkAmendedLoop similarity_threshold max_chunk_size rest [sentence]
          sentence_embedding

/-- The amended claim C3 as a whole-input function. -/
noncomputable def semanticChunkAmended (sentences : List (String × List ℝ))
    (similarity_threshold : ℝ) (max_chunk_size : ℕ) : List String :=
  match sentences with
  | [] => []
  | first :: rest =>
    semanticChunkAmendedLoop similarity_threshold max_chunk_size rest [first.1] first.2

/-- The Python regex whitespace class \s (its ASCII part, which is all that
occurs in the manuals): space, tab, newline, carriage return, vertical tab,
form feed. -/
def isPyWhitespace (c : Char) : Bool :=
  c == ' ' || c == '\t' || c == '\n' || c == '\r' || c == '\x0b' || c == '\x0c'

/-- After the leading newline of a candidate paragraph break, consume the
greedy \s* and require a final newline: returns the text after the longest
match of the remainder of the pattern, tracking the best (longest) match
seen so far. -/
def wsNewlineTail : List Char → Option (List Char) → Option (List Char)
  | [], best => best
  | c :: rest, best =>
    if isPyWhitespace c then
      wsNewlineTail rest (if c == '\n' then some rest else best)
    else best

/-- Models `re.split(r'\n\s*\n', text)` field by field: at each position, a match
is a newline followed by the greedy whitespace-then-newline tail.  The fuel
argument bounds the recursion; it starts at the character count plus one and
every step consumes at least one character, so it never runs out on real
input. -/
def splitParaBreaksAux : ℕ → List Char → List Char → List (List Char)
  | 0, cs, acc => [acc.reverse ++ cs]
  | fuel + 1, [], acc => [acc.reverse]
  | fuel + 1, c :: rest, acc =>
    match (if c == '\n' then wsNewlineTail rest none else none) with
    | some remainder => acc.reverse :: splitParaBreaksAux fuel remainder []
    | none => splitParaBreaksAux fuel rest (c :: acc)

/-- ingest_paragraph.py line 128: `re.split(r'\n\s*\n', text)`. -/
def splitParagraphBreaks (text : String) : List String :=
  (splitParaBreaksAux (text.length + 1) text.toList []).map (fun cs => String.mk cs)

/-- Python str.strip(): drop leading and trailing whitespace. -/
def stripString (s : String) : String :=
  String.mk (((s.toList.dropWhile isPyWhitespace).reverse.dropWhile isPyWhitespace).reverse)

/-- ingest_paragraph.py line 130:
`[p.strip() for p in paragraphs if p.strip()]`. -/
def cleanParagraphs (text : String) : List String :=
  ((splitParagraphBreaks text).map stripString).filter (fun p => !p.isEmpty)

/-- One of `. ! ?`, the lookbehind class of the sentence-split regex. -/
def sentencePunct (c : Char) : Bool :=
  c == '.' || c == '!' || c == '?'

/-- Models `re.split(r'(?<=[.!?])\s+', para)` field by field: a split point is a
whitespace character directly preceded by sentence punctuation, and the
greedy \s+ consumes the whole whitespace run.  Fuel as in
splitParaBreaksAux. -/
def splitSentencesAux : ℕ → List Char → List Char → Option Char → List (List Char)
  | 0, cs, acc, _ => [acc.reverse ++ cs]
  | fuel + 1, [], acc, _ => [acc.reverse]
  | fuel + 1, c :: rest, acc, prev =>
    if (match prev with | some p => sentencePunct p | none => false) && isPyWhitespace c then
      acc.reverse :: splitSentencesAux fuel ((c :: rest).dropWhile isPyWhitespace) [] none
    else
      splitSentencesAux fuel rest (c :: acc) (some c)

/-- ingest_paragraph.py lines 152 and 184:
`re.split(r'(?<=[.!?])\s+', para)`. -/
def splitSentences (para : String) : List String :=
  (splitSentencesAux (para.length + 1) para.toList [] none).map (fun cs => String.mk cs)

/-- The sentence accumulator of ingest_paragraph.py (lines 153-164 and
185-196): returns the chunks emitted inside the loop together with the final
temp_chunk and temp_length. -/
def sentenceSplitLoop (max_chunk_size : ℕ) :
    List String → List String → ℕ → List String × List String × ℕ
  | [], temp_chunk, temp_length => ([], temp_chunk, temp_length)
  | sent :: rest, temp_chunk, temp_length =>
    if temp_length + sent.length ≤ max_chunk_size then
      sentenceSplitLoop max_chunk_size rest (temp_chunk ++ [sent])
        (temp_length + sent.length + 1)
    else
      let emitted := if temp_chunk.isEmpty then [] else [joinSep " " temp_chunk]
      let result := sentenceSplitLoop max_chunk_size rest [sent] sent.length
      (emitted ++ result.1, result.2)

/-- The merging loop of ingest_paragraph.py (lines 137-177), including the
final `if current_chunk` append: state is the remaining paragraphs, the
current chunk's paragraphs and the running character total. -/
def mergeParagraphLoop (max_chunk_size : ℕ) :
    List String → List String → ℕ → List String
  | [], current_chunk, _ =>
    if current_chunk.isEmpty then [] else [joinSep "\n\n" current_chunk]
  | para :: rest, current_chunk, current_length =>
    if current_length + para.length ≤ max_chunk_size then
      mergeParagraphLoop max_chunk_size rest (current_chunk ++ [para])
        (current_length + para.length + 1)
    else
      let emitted := if current_chunk.isEmpty then [] else [joinSep "\n\n" current_chunk]
      if max_chunk_size < para.length then
        let split := sentenceSplitLoop max_chunk_size (splitSentences para) [] 0
        emitted ++ split.1 ++
          (if split.2.1.isEmpty then mergeParagraphLoop max_chunk_size rest [] 0
           else mergeParagraphLoop max_chunk_size rest split.2.1 split.2.2)
      else
        emitted ++ mergeParagraphLoop max_chunk_size rest [para] para.length

/-- The non-merging branch of ingest_paragraph.py (lines 179-199): emit each
paragraph alone, sentence-splitting the oversized ones with the same
accumulator and flushing the final temp_chunk per paragraph. -/
def noMergeLoop (max_chunk_size : ℕ) : List String → List String
  | [] => []
  | para :: rest =>
    if para.length ≤ max_chunk_size then para :: noMergeLoop max_chunk_size rest
    else
      let split := sentenceSplitLoop max_chunk_size (splitSentences para) [] 0
      split.1 ++ (if split.2.1.isEmpty then [] else [joinSep " " split.2.1]) ++
        noMergeLoop max_chunk_size rest

/-- ingest_paragraph.py, paragraph_chunk_text.  min_paragraph_size is a
parameter of the source as well and is equally unused in its body. -/
def paragraph_chunk_text (text : String) (max_chunk_size : ℕ)
    (merge_small_paragraphs : Bool) (min_paragraph_size : ℕ) : List String :=
  let paragraphs := cleanParagraphs text
  if paragraphs.isEmpty then []
  else if merge_small_paragraphs then mergeParagraphLoop max_chunk_size paragraphs [] 0
  else noMergeLoop max_chunk_size paragraphs

/-- A JSON scalar held in one cell of the aggregated table. -/
inductive CellValue where
  | str (s : String)
  | num (q : ℚ)
deriving DecidableEq, Repr

/-- The config block of one experiment artifact, as read by
aggregate_results.py with config.get (absent keys give None). -/
structure ArtifactConfig where
  strategy : Option String
  top_k : Option ℚ
  search_type : Option String
  threshold : Option ℚ
  total_questions : Option ℚ
deriving DecidableEq, Repr

/-- The retriever metric group of one artifact (each key read with .get). -/
structure ArtifactRetriever where
  hit_rate : Option ℚ
  avg_recall : Option ℚ
  avg_ndcg : Option ℚ
  mrr : Option ℚ
  map : Option ℚ
deriving DecidableEq, Repr

/-- The generator metric group of one artifact. -/
structure ArtifactGenerator where
  avg_faithfulness : Option ℚ
  avg_key_facts_coverage : Option ℚ
  avg_answer_relevance : Option ℚ
deriving DecidableEq, Repr

/-- The end_to_end metric group of one artifact. -/
structure ArtifactE2E where
  avg_context_recall : Option ℚ
  avg_answer_correctness : Option ℚ
  avg_latency_ms : Option ℚ
  min_latency_ms : Option ℚ
  max_latency_ms : Option ℚ
  p95_latency_ms : Option ℚ
  p99_latency_ms : Option ℚ
  estimated_cost_per_query : Option ℚ
deriving DecidableEq, Repr

/-- The metrics block of one artifact: each group present or absent, as
tested by `'retriever' in metrics` and friends. -/
structure ArtifactMetrics where
  retriever : Option ArtifactRetriever
  generator : Option ArtifactGenerator
  end_to_end : Option ArtifactE2E
deriving DecidableEq, Repr

/-- One parsed experiment artifact file together with its basename (the
files that fail to parse are skipped by the source's try/except and never
reach the row builder). -/
structure Artifact where
  config : ArtifactConfig
  metrics : ArtifactMetrics
  source_file : String
deriving DecidableEq, Repr

/-- One table row, modelling the Python dict `row`: an association list in
key insertion order, whose values are committed cells (a present key with a
None value models config.get returning None). -/
abbrev AggRow := List (String × Option CellValue)

/-- aggregate_results.py, lines 27-67: build the row dict of one artifact —
the five config keys, then each present metric group's keys, then
source_file. -/
def buildRow (a : Artifact) : AggRow :=
  [("strategy", a.config.strategy.map CellValue.str),
   ("top_k", a.config.top_k.map CellValue.num),
   ("search_type", a.config.search_type.map CellValue.str),
   ("threshold", a.config.threshold.map CellValue.num),
   ("total_questions", a.config.total_questions.map CellValue.num)] ++
  (match a.metrics.retriever with
   | some r =>
     [("hit_rate", r.hit_rate.map CellValue.num),
      ("avg_recall", r.avg_recall.map CellValue.num),
      ("avg_ndcg", r.avg_ndcg.map CellValue.num),
      ("mrr", r.mrr.map CellValue.num),
      ("map", r.map.map CellValue.num)]
   | none => []) ++
  (match a.metrics.generator with
   | some g =>
     [("avg_faithfulness", g.avg_faithfulness.map CellValue.num),
      ("avg_key_facts_coverage", g.avg_key_facts_coverage.map CellValue.num),
      ("avg_answer_relevance", g.avg_answer_relevance.map CellValue.num)]
   | none => []) ++
  (match a.metrics.end_to_end with
   | some e =>
     [("avg_context_recall", e.avg_context_recall.map CellValue.num),
      ("avg_answer_correctness", e.avg_answer_correctness.map CellValue.num),
      ("avg_latency_ms", e.avg_latency_ms.map CellValue.num),
      ("min_latency_ms", e.min_latency_ms.map CellValue.num),
      ("max_latency_ms", e.max_latency_ms.map CellValue.num),
      ("p95_latency_ms", e.p95_latency_ms.map CellValue.num),
      ("p99_latency_ms", e.p99_latency_ms.map CellValue.num),
      ("estimated_cost_per_query", e.estimated_cost_per_query.map CellValue.num)]
   | none => []) ++
  [("source_file", some (CellValue.str a.source_file))]

/-- aggregate_results.py, lines 75-83: the fixed column order. -/
def column_order : List String :=
  ["strategy", "top_k", "search_type", "threshold",
   "hit_rate", "avg_recall", "avg_ndcg", "mrr", "map",
   "avg_faithfulness", "avg_key_facts_coverage", "avg_answer_relevance",
   "avg_context_recall", "avg_answer_correctness",
   "avg_latency_ms", "min_latency_ms", "max_latency_ms",
   "p95_latency_ms", "p99_latency_ms",
   "estimated_cost_per_query", "total_questions", "source_file"]

/-- pd.DataFrame over a list of dicts: the column set is the union of the
rows' keys, in first-appearance order. -/
def dfColumnsUnion (rows : List AggRow) : List String :=
  rows.foldl (fun acc row =>
    acc ++ (row.map Prod.fst).filter (fun k => !acc.contains k)) []

/-- aggregate_results.py, line 85:
`[col for col in column_order if col in df.columns]`. -/
def existingCols (rows : List AggRow) : List String :=
  column_order.filter (fun col => (dfColumnsUnion rows).contains col)

/-- aggregate_results.py, load_experiment_results: None when there are no
artifact files, otherwise one row per parsed artifact and the reindexed
column list. -/
def load_experiment_results (artifacts : List Artifact) : Option (List String × List AggRow) :=
  if artifacts.isEmpty then none
  else
    let rows := artifacts.map buildRow
    some (existingCols rows, rows)

/-- Reading one cell of the final data frame: a key absent from the row's
dict is filled with NaN by pandas, collapsed here with a present-but-None
value into none. -/
def getCell (row : AggRow) (col : String) : Option CellValue :=
  match row.lookup col with
  | none => none
  | some v => v

/-! ## Helper lemmas -/

theorem listMean_nonneg {α : Type} [LinearOrderedField α] {l : List α}
    (h : ∀ x ∈ l, 0 ≤ x) : 0 ≤ l.sum / (l.length : α) :=
  div_nonneg (List.sum_nonneg h) (Nat.cast_nonneg _)

theorem listMean_le_one {α : Type} [LinearOrderedField α] {l : List α}
    (hne : l ≠ []) (h : ∀ x ∈ l, x ≤ 1) : l.sum / (l.length : α) ≤ 1 := by
  have hlen : 0 < (l.length : α) := by
    exact_mod_cast List.length_pos.mpr hne
  rw [div_le_one hlen]
  simpa using List.sum_le_card_nsmul l 1 h

/-- The discount weight of a 0-indexed rank: `1 / np.log2(idx + 2)`. -/
noncomputable def logWeight (i : ℕ) : ℝ := 1 / Real.logb 2 ((i : ℝ) + 2)

theorem logb_two_pos (i : ℕ) : 0 < Real.logb 2 ((i : ℝ) + 2) := by
  apply Real.logb_pos (by norm_num)
  have : (0 : ℝ) ≤ (i : ℝ) := Nat.cast_nonneg i
  linarith

theorem logWeight_pos (i : ℕ) : 0 < logWeight i :=
  div_pos one_pos (logb_two_pos i)

theorem logWeight_succ_le (i : ℕ) : logWeight (i + 1) ≤ logWeight i := by
  unfold logWeight
  apply one_div_le_one_div_of_le (logb_two_pos i)
  have h2 : (1 : ℝ) < 2 := by norm_num
  have hx : (0 : ℝ) < (i : ℝ) + 2 := by positivity
  rw [Real.logb_le_logb h2 hx (by push_cast; positivity)]
  push_cast
  linarith

theorem dcgSum_nonneg (l : List ℕ) (j : ℕ) : 0 ≤ dcgSum l j := by
  induction l generalizing j with
  | nil => simp [dcgSum]
  | cons r t ih =>
    have hterm : 0 ≤ (r : ℝ) / Real.logb 2 ((j : ℝ) + 2) :=
      div_nonneg (Nat.cast_nonneg r) (le_of_lt (logb_two_pos j))
    simpa [dcgSum] using add_nonneg hterm (ih (j + 1))

theorem logWeight_shift_sum (k j : ℕ) :
    ∑ m ∈ Finset.range k, logWeight (j + 1 + m) ≤ ∑ m ∈ Finset.range k, logWeight (j + m) := by
  apply Finset.sum_le_sum
  intro m _
  have := logWeight_succ_le (j + m)
  have harg : j + 1 + m = j + m + 1 := by omega
  rw [harg]
  exact this

theorem dcgSum_le_count (l : List ℕ) (h : ∀ x ∈ l, x ≤ 1) (j : ℕ) :
    dcgSum l j ≤ ∑ m ∈ Finset.range (l.count 1), logWeight (j + m) := by
  induction l generalizing j with
  | nil => simp [dcgSum]
  | cons r t ih =>
    have hr : r ≤ 1 := h r (List.mem_cons_self r t)
    have ht : ∀ x ∈ t, x ≤ 1 := fun x hx => h x (List.mem_cons_of_mem r hx)
    interval_cases r
    · have hcount : (0 :: t).count 1 = t.count 1 := by simp [List.count_cons]
      rw [hcount]
      have : dcgSum (0 :: t) j = dcgSum t (j + 1) := by simp [dcgSum]
      rw [this]
      exact le_trans (ih ht (j + 1)) (logWeight_shift_sum (t.count 1) j)
    · have hcount : (1 :: t).count 1 = t.count 1 + 1 := by simp [List.count_cons]
      rw [hcount]
      have hstep : dcgSum (1 :: t) j = logWeight j + dcgSum t (j + 1) := by
        simp [dcgSum, logWeight]
      rw [hstep, Finset.sum_range_succ']
      simp only [Nat.add_zero]
      have hre : ∀ m, j + (m + 1) = j + 1 + m := by omega
      calc logWeight j + dcgSum t (j + 1)
        ≤ logWeight j + ∑ m ∈ Finset.range (t.count 1), logWeight (j + 1 + m) := by
            have := ih ht (j + 1)
            linarith
        _ = (∑ m ∈ Finset.range (t.count 1), logWeight (j + (m + 1))) + logWeight j := by
            rw [add_comm]
            congr 1
            exact Finset.sum_congr rfl (fun m _ => by rw [hre m])

theorem count_one_eq_sum (l : List ℕ) (h : ∀ x ∈ l, x ≤ 1) : l.count 1 = l.sum := by
  induction l with
  | nil => simp
  | cons r t ih =>
    have hr : r ≤ 1 := h r (List.mem_cons_self r t)
    have ht : ∀ x ∈ t, x ≤ 1 := fun x hx => h x (List.mem_cons_of_mem r hx)
    interval_cases r <;> simp [List.count_cons, ih ht] <;> omega

theorem orderedInsert_one_binary (k m : ℕ) :
    List.orderedInsert (· ≥ ·) 1 (List.replicate k 1 ++ List.replicate m 0)
      = List.replicate (k + 1) 1 ++ List.replicate m 0 := by
  cases k with
  | zero =>
    cases m with
    | zero => simp [List.orderedInsert]
    | succ m' => simp [List.replicate_succ, List.orderedInsert]
  | succ k' => simp [List.replicate_succ, List.orderedInsert]

theorem orderedInsert_zero_binary (k m : ℕ) :
    List.orderedInsert (· ≥ ·) 0 (List.replicate k 1 ++ List.replicate m 0)
      = List.replicate k 1 ++ List.replicate (m + 1) 0 := by
  induction k with
  | zero =>
    cases m with
    | zero => simp [List.orderedInsert]
    | succ m' => simp [List.replicate_succ, List.orderedInsert]
  | succ k' ih => simpa [List.replicate_succ, List.orderedInsert] using ih

theorem insertionSort_binary (l : List ℕ) (h : ∀ x ∈ l, x ≤ 1) :
    List.insertionSort (· ≥ ·) l
      = List.replicate (l.count 1) 1 ++ List.replicate (l.count 0) 0 := by
  induction l with
  | nil => simp
  | cons r t ih =>
    have hr : r ≤ 1 := h r (List.mem_cons_self r t)
    have ht : ∀ x ∈ t, x ≤ 1 := fun x hx => h x (List.mem_cons_of_mem r hx)
    have hsort : List.insertionSort (· ≥ ·) (r :: t)
        = List.orderedInsert (· ≥ ·) r (List.insertionSort (· ≥ ·) t) := rfl
    rw [hsort, ih ht]
    interval_cases r
    · rw [orderedInsert_zero_binary]
      simp [List.count_cons]
    · rw [orderedInsert_one_binary]
      simp [List.count_cons]

theorem dcgSum_append (l₁ l₂ : List ℕ) (j : ℕ) :
    dcgSum (l₁ ++ l₂) j = dcgSum l₁ j + dcgSum l₂ (j + l₁.length) := by
  induction l₁ generalizing j with
  | nil => simp [dcgSum]
  | cons r t ih =>
    have h1 : dcgSum ((r :: t) ++ l₂) j
        = (r : ℝ) / Real.logb 2 ((j : ℝ) + 2) + dcgSum (t ++ l₂) (j + 1) := by
      simp [dcgSum]
    have h2 : dcgSum (r :: t) j
        = (r : ℝ) / Real.logb 2 ((j : ℝ) + 2) + dcgSum t (j + 1) := by
      simp [dcgSum]
    rw [h1, h2, ih (j + 1), List.length_cons,
      show j + (t.length + 1) = j + 1 + t.length by omega]
    ring

theorem dcgSum_replicate_zero (m j : ℕ) : dcgSum (List.replicate m 0) j = 0 := by
  induction m generalizing j with
  | zero => simp [dcgSum]
  | succ m' ih => simp [List.replicate_succ, dcgSum, ih]

theorem dcgSum_replicate_one (k j : ℕ) :
    dcgSum (List.replicate k 1) j = ∑ m ∈ Finset.range k, logWeight (j + m) := by
  induction k generalizing j with
  | zero => simp [dcgSum]
  | succ k' ih =>
    rw [List.replicate_succ]
    have hstep : dcgSum (1 :: List.replicate k' 1) j
        = logWeight j + dcgSum (List.replicate k' 1) (j + 1) := by
      simp [dcgSum, logWeight]
    rw [hstep, ih (j + 1), Finset.sum_range_succ']
    simp only [Nat.add_zero]
    rw [add_comm]
    congr 1
    exact Finset.sum_congr rfl (fun m _ => by rw [show j + (m + 1) = j + 1 + m by omega])

theorem idcg_eq_sum (l : List ℕ) (h : ∀ x ∈ l, x ≤ 1) :
    dcgSum (List.insertionSort (· ≥ ·) l) 0
      = ∑ m ∈ Finset.range (l.count 1), logWeight m := by
  rw [insertionSort_binary l h, dcgSum_append, dcgSum_replicate_zero,
    dcgSum_replicate_one]
  simp

theorem idcg_pos (l : List ℕ) (h : ∀ x ∈ l, x ≤ 1) (hs : l.sum ≠ 0) :
    0 < dcgSum (List.insertionSort (· ≥ ·) l) 0 := by
  rw [idcg_eq_sum l h]
  have hcount : 0 < l.count 1 := by
    have := count_one_eq_sum l h
    omega
  exact Finset.sum_pos (fun i _ => logWeight_pos i) (Finset.nonempty_range_iff.mpr (by omega))

theorem dcg_le_idcg (l : List ℕ) (h : ∀ x ∈ l, x ≤ 1) :
    dcgSum l 0 ≤ dcgSum (List.insertionSort (· ≥ ·) l) 0 := by
  rw [idcg_eq_sum l h]
  simpa using dcgSum_le_count l h 0

theorem relevanceScores_le_one (sim : String → String → ℚ) (threshold : ℚ) (top_k : ℕ)
    (result : SystemResponse) (gt : GroundTruth) :
    ∀ x ∈ relevanceScores sim threshold top_k result gt, x ≤ 1 := by
  intro x hx
  simp only [relevanceScores, List.mem_map] at hx
  obtain ⟨c, _, hc⟩ := hx
  split at hc <;> omega

theorem ndcgForQuery_mem_unit (sim : String → String → ℚ) (threshold : ℚ) (top_k : ℕ)
    (result : SystemResponse) (gt : GroundTruth) :
    0 ≤ ndcgForQuery sim threshold top_k result gt ∧
      ndcgForQuery sim threshold top_k result gt ≤ 1 := by
  have hle := relevanceScores_le_one sim threshold top_k result gt
  unfold ndcgForQuery
  by_cases hguard : relevanceScores sim threshold top_k result gt = []
      ∨ (relevanceScores sim threshold top_k result gt).sum = 0
  · rw [if_pos hguard]
    norm_num
  · rw [if_neg hguard]
    push_neg at hguard
    have hpos := idcg_pos _ hle hguard.2
    rw [if_pos hpos]
    refine ⟨div_nonneg (dcgSum_nonneg _ 0) (le_of_lt hpos), ?_⟩
    rw [div_le_one hpos]
    exact dcg_le_idcg _ hle

theorem calculate_ndcg_mem_unit (sim : String → String → ℚ) (threshold : ℚ)
    (results : List SystemResponse) (ground_truths : List GroundTruth) (top_k : ℕ) :
    0 ≤ calculate_ndcg sim threshold results ground_truths top_k ∧
      calculate_ndcg sim threshold results ground_truths top_k ≤ 1 := by
  unfold calculate_ndcg
  by_cases h : ((results.zip ground_truths).map (fun rg =>
      ndcgForQuery sim threshold top_k rg.1 rg.2)).isEmpty
  · rw [if_pos h]; norm_num
  · rw [if_neg h]
    have hne : (results.zip ground_truths).map (fun rg =>
        ndcgForQuery sim threshold top_k rg.1 rg.2) ≠ [] := by
      simpa [List.isEmpty_iff] using h
    constructor
    · apply listMean_nonneg
      intro x hx
      obtain ⟨rg, _, hrg⟩ := List.mem_map.mp hx
      exact hrg ▸ (ndcgForQuery_mem_unit sim threshold top_k rg.1 rg.2).1
    · apply listMean_le_one hne
      intro x hx
      obtain ⟨rg, _, hrg⟩ := List.mem_map.mp hx
      exact hrg ▸ (ndcgForQuery_mem_unit sim threshold top_k rg.1 rg.2).2

theorem reciprocalRank_nonneg (sim : String → String → ℚ) (threshold : ℚ)
    (gt_chunks : List String) :
    ∀ chunks rank, 0 ≤ reciprocalRank sim threshold gt_chunks chunks rank := by
  intro chunks
  induction chunks with
  | nil => intro rank; simp [reciprocalRank]
  | cons c rest ih =>
    intro rank
    simp only [reciprocalRank]
    split
    · positivity
    · exact ih (rank + 1)

theorem reciprocalRank_le_one (sim : String → String → ℚ) (threshold : ℚ)
    (gt_chunks : List String) :
    ∀ chunks rank, 1 ≤ rank → reciprocalRank sim threshold gt_chunks chunks rank ≤ 1 := by
  intro chunks
  induction chunks with
  | nil => intro rank _; simp [reciprocalRank]
  | cons c rest ih =>
    intro rank hrank
    simp only [reciprocalRank]
    split
    · have hpos : (0 : ℚ) < (rank : ℚ) := by exact_mod_cast Nat.lt_of_lt_of_le Nat.zero_lt_one hrank
      rw [div_le_one hpos]
      exact_mod_cast hrank
    · exact ih (rank + 1) (by omega)

theorem recallsList_nonneg (sim : String → String → ℚ) (threshold : ℚ) (top_k : ℕ) :
    ∀ pairs, ∀ x ∈ recallsList sim threshold top_k pairs, 0 ≤ x := by
  intro pairs
  induction pairs with
  | nil => simp [recallsList]
  | cons p rest ih =>
    obtain ⟨r, g⟩ := p
    simp only [recallsList]
    split
    · exact ih
    · intro x hx
      rcases List.mem_cons.mp hx with h | h
      · subst h; positivity
      · exact ih x h

theorem averagePrecisionSum_nonneg (sim : String → String → ℚ) (threshold : ℚ)
    (gt_chunks : List String) :
    ∀ chunks rank relevant_count precision_sum, 0 ≤ precision_sum →
      0 ≤ averagePrecisionSum sim threshold gt_chunks chunks rank relevant_count precision_sum := by
  intro chunks
  induction chunks with
  | nil => intro _ _ _ h; simpa [averagePrecisionSum] using h
  | cons c rest ih =>
    intro rank relevant_count precision_sum h
    simp only [averagePrecisionSum]
    split
    · exact ih _ _ _ (add_nonneg h (by positivity))
    · exact ih _ _ _ h

theorem apScoresList_nonneg (sim : String → String → ℚ) (threshold : ℚ) (top_k : ℕ) :
    ∀ pairs, ∀ x ∈ apScoresList sim threshold top_k pairs, 0 ≤ x := by
  intro pairs
  induction pairs with
  | nil => simp [apScoresList]
  | cons p rest ih =>
    obtain ⟨r, g⟩ := p
    simp only [apScoresList]
    split
    · exact ih
    · intro x hx
      rcases List.mem_cons.mp hx with h | h
      · subst h
        have h0 := averagePrecisionSum_nonneg sim threshold g.relevant_chunks
          (r.retrieved_chunks.take top_k) 1 0 0 le_rfl
        positivity
      · exact ih x h

/-- C1 (amended).  For every list of query results, every list of
ground-truth items and any relevance judgement: the hit rate, the averaged
NDCG and the MRR lie in the closed interval [0,1]; the averaged recall and
the averaged MAP are nonnegative (they can exceed 1 when more retrieved
chunks are judged relevant than there are ground-truth chunks); and each of
the five metrics returns exactly 0.0 on an empty list of query results. -/
theorem retrieval_metric_ranges (sim : String → String → ℚ) (threshold : ℚ)
    (results : List SystemResponse) (ground_truths : List GroundTruth) (top_k : ℕ) :
    (0 ≤ calculate_hit_rate sim threshold results ground_truths top_k ∧
      calculate_hit_rate sim threshold results ground_truths top_k ≤ 1) ∧
    (0 ≤ calculate_ndcg sim threshold results ground_truths top_k ∧
      calculate_ndcg sim threshold results ground_truths top_k ≤ 1) ∧
    (0 ≤ calculate_mrr sim threshold results ground_truths top_k ∧
      calculate_mrr sim threshold results ground_truths top_k ≤ 1) ∧
    0 ≤ calculate_recall sim threshold results ground_truths top_k ∧
    0 ≤ calculate_map sim threshold results ground_truths top_k ∧
    (calculate_hit_rate sim threshold [] ground_truths top_k = 0 ∧
     calculate_ndcg sim threshold [] ground_truths top_k = 0 ∧
     calculate_mrr sim threshold [] ground_truths top_k = 0 ∧
     calculate_recall sim threshold [] ground_truths top_k = 0 ∧
     calculate_map sim threshold [] ground_truths top_k = 0) := by
  refine ⟨?_, ?_, ?_, ?_, ?_, ?_, ?_, ?_, ?_, ?_⟩
  · -- hit rate in [0,1]
    unfold calculate_hit_rate
    by_cases h : results.isEmpty
    · rw [if_pos h]; norm_num
    · rw [if_neg h]
      have hne : results ≠ [] := by simpa [List.isEmpty_iff] using h
      have hlen : 0 < (results.length : ℚ) := by
        exact_mod_cast List.length_pos.mpr hne
      refine ⟨by positivity, ?_⟩
      rw [div_le_one hlen]
      have h1 := List.countP_le_length (l := results.zip ground_truths)
        (fun rg => (rg.1.retrieved_chunks.take top_k).any (fun chunk =>
          is_relevant_chunk sim threshold chunk.text rg.2.relevant_chunks))
      have h2 : (results.zip ground_truths).length ≤ results.length := by
        rw [List.length_zip]; omega
      exact_mod_cast le_trans h1 h2
  · -- ndcg in [0,1]
    exact calculate_ndcg_mem_unit sim threshold results ground_truths top_k
  · -- mrr in [0,1]
    unfold calculate_mrr
    by_cases h : ((results.zip ground_truths).map (fun rg =>
        reciprocalRank sim threshold rg.2.relevant_chunks
          (rg.1.retrieved_chunks.take top_k) 1)).isEmpty
    · rw [if_pos h]; norm_num
    · rw [if_neg h]
      have hne : (results.zip ground_truths).map (fun rg =>
          reciprocalRank sim threshold rg.2.relevant_chunks
            (rg.1.retrieved_chunks.take top_k) 1) ≠ [] := by
        simpa [List.isEmpty_iff] using h
      constructor
      · apply listMean_nonneg
        intro x hx
        obtain ⟨rg, _, hrg⟩ := List.mem_map.mp hx
        exact hrg ▸ reciprocalRank_nonneg sim threshold rg.2.relevant_chunks _ 1
      · apply listMean_le_one hne
        intro x hx
        obtain ⟨rg, _, hrg⟩ := List.mem_map.mp hx
        exact hrg ▸ reciprocalRank_le_one sim threshold rg.2.relevant_chunks _ 1 le_rfl
  · -- recall nonnegative
    unfold calculate_recall
    by_cases h : (recallsList sim threshold top_k (results.zip ground_truths)).isEmpty
    · rw [if_pos h]
    · rw [if_neg h]
      exact listMean_nonneg (recallsList_nonneg sim threshold top_k _)
  · -- map nonnegative
    unfold calculate_map
    by_cases h : (apScoresList sim threshold top_k (results.zip ground_truths)).isEmpty
    · rw [if_pos h]
    · rw [if_neg h]
      exact listMean_nonneg (apScoresList_nonneg sim threshold top_k _)
  · rfl
  · rfl
  · rfl
  · rfl
  · rfl

/-- C1 counterexample.  With a judge that accepts every chunk, a single
query with two retrieved chunks but only one ground-truth chunk yields an
averaged recall of 2 and an averaged MAP of 2, both outside [0,1]. -/
theorem recall_map_exceed_one_cex :
    calculate_recall (fun _ _ => 1) 0 [⟨[⟨"a"⟩, ⟨"b"⟩]⟩] [⟨["g"]⟩] 5 = 2 ∧
    calculate_map (fun _ _ => 1) 0 [⟨[⟨"a"⟩, ⟨"b"⟩]⟩] [⟨["g"]⟩] 5 = 2 ∧
    ¬(calculate_recall (fun _ _ => 1) 0 [⟨[⟨"a"⟩, ⟨"b"⟩]⟩] [⟨["g"]⟩] 5 ≤ 1) := by
  have hrec : calculate_recall (fun _ _ => 1) 0 [⟨[⟨"a"⟩, ⟨"b"⟩]⟩] [⟨["g"]⟩] 5 = 2 := by
    norm_num [calculate_recall, recallsList, is_relevant_chunk]
  have hmap : calculate_map (fun _ _ => 1) 0 [⟨[⟨"a"⟩, ⟨"b"⟩]⟩] [⟨["g"]⟩] 5 = 2 := by
    norm_num [calculate_map, apScoresList, averagePrecisionSum, is_relevant_chunk]
  exact ⟨hrec, hmap, by rw [hrec]; norm_num⟩

theorem recallsList_eq_filter_map (sim : String → String → ℚ) (threshold : ℚ) (top_k : ℕ) :
    ∀ pairs : List (SystemResponse × GroundTruth),
      recallsList sim threshold top_k pairs
        = (pairs.filter (fun rg => !rg.2.relevant_chunks.isEmpty)).map (fun rg =>
            (((rg.1.retrieved_chunks.take top_k).countP (fun chunk =>
              is_relevant_chunk sim threshold chunk.text rg.2.relevant_chunks) : ℕ) : ℚ)
              / (rg.2.relevant_chunks.length : ℚ)) := by
  intro pairs
  induction pairs with
  | nil => simp [recallsList]
  | cons p rest ih =>
    obtain ⟨r, g⟩ := p
    by_cases h : g.relevant_chunks.isEmpty
    · simp only [recallsList, if_pos h, List.filter_cons]
      rw [ih]
      simp [h]
    · simp only [recallsList, if_neg h, List.filter_cons]
      rw [ih]
      simp [h]

/-- C2.  The averaged recall is the mean, over exactly those zipped
(result, ground truth) pairs whose ground-truth chunk list is non-empty, of
the per-query value: the count of retrieved chunks within top_k judged
relevant (every one counted, with no deduplication against the ground-truth
set) divided by the number of ground-truth chunks.  Queries with empty
ground truth contribute to neither the numerator nor the denominator of the
mean. -/
theorem recall_per_query_characterization (sim : String → String → ℚ) (threshold : ℚ)
    (results : List SystemResponse) (ground_truths : List GroundTruth) (top_k : ℕ) :
    calculate_recall sim threshold results ground_truths top_k =
      (let qualifying := (results.zip ground_truths).filter
        (fun rg => !rg.2.relevant_chunks.isEmpty)
       let per_query := qualifying.map (fun rg =>
        (((rg.1.retrieved_chunks.take top_k).countP (fun chunk =>
            is_relevant_chunk sim threshold chunk.text rg.2.relevant_chunks) : ℕ) : ℚ)
          / (rg.2.relevant_chunks.length : ℚ))
       if per_query.isEmpty then 0 else per_query.sum / (per_query.length : ℚ)) := by
  unfold calculate_recall
  rw [recallsList_eq_filter_map]

theorem relevanceScores_sum_zero_iff (sim : String → String → ℚ) (threshold : ℚ)
    (top_k : ℕ) (result : SystemResponse) (gt : GroundTruth) :
    (relevanceScores sim threshold top_k result gt).sum = 0 ↔
      (result.retrieved_chunks.take top_k).all (fun chunk =>
        !(is_relevant_chunk sim threshold chunk.text gt.relevant_chunks)) := by
  rw [List.sum_eq_zero_iff]
  simp only [relevanceScores, List.mem_map, List.all_eq_true, Bool.not_eq_true']
  constructor
  · intro h c hc
    by_contra hrel
    have := h 1 ⟨c, hc, by simp [hrel]⟩
    omega
  · rintro h x ⟨c, hc, hx⟩
    rw [h c hc] at hx
    simp at hx
    omega

/-- C4.  Per query, the NDCG score is DCG/IDCG with binary per-rank
relevance and discount 1/log2(rank+2) over 0-indexed ranks: it is exactly
0.0 whenever every retrieved chunk is judged irrelevant (in particular when
nothing was retrieved), and whenever some retrieved chunk is relevant the
divisor IDCG is strictly positive and the score is the quotient DCG/IDCG —
never a division by zero.  Consequently the averaged NDCG is a well-defined
number in [0, 1] for every input. -/
theorem ndcg_zero_guard (sim : String → String → ℚ) (threshold : ℚ) (top_k : ℕ)
    (result : SystemResponse) (gt : GroundTruth)
    (results : List SystemResponse) (ground_truths : List GroundTruth) :
    ((result.retrieved_chunks.take top_k).all (fun chunk =>
        !(is_relevant_chunk sim threshold chunk.text gt.relevant_chunks)) →
      ndcgForQuery sim threshold top_k result gt = 0) ∧
    ((result.retrieved_chunks.take top_k).any (fun chunk =>
        is_relevant_chunk sim threshold chunk.text gt.relevant_chunks) →
      0 < dcgSum (List.insertionSort (· ≥ ·)
          (relevanceScores sim threshold top_k result gt)) 0 ∧
      ndcgForQuery sim threshold top_k result gt =
        dcgSum (relevanceScores sim threshold top_k result gt) 0
          / dcgSum (List.insertionSort (· ≥ ·)
              (relevanceScores sim threshold top_k result gt)) 0) ∧
    (0 ≤ calculate_ndcg sim threshold results ground_truths top_k ∧
      calculate_ndcg sim threshold results ground_truths top_k ≤ 1) := by
  refine ⟨?_, ?_, calculate_ndcg_mem_unit sim threshold results ground_truths top_k⟩
  · intro hall
    have hsum : (relevanceScores sim threshold top_k result gt).sum = 0 :=
      (relevanceScores_sum_zero_iff sim threshold top_k result gt).mpr hall
    unfold ndcgForQuery
    rw [if_pos (Or.inr hsum)]
  · intro hany
    obtain ⟨c, hc, hrel⟩ := List.any_eq_true.mp hany
    have hsum : (relevanceScores sim threshold top_k result gt).sum ≠ 0 := by
      intro h0
      have := (relevanceScores_sum_zero_iff sim threshold top_k result gt).mp h0
      rw [List.all_eq_true] at this
      have := this c hc
      simp [hrel] at this
    have hpos := idcg_pos _ (relevanceScores_le_one sim threshold top_k result gt) hsum
    refine ⟨hpos, ?_⟩
    unfold ndcgForQuery
    rw [if_neg (by push_neg; exact ⟨fun he => hsum (by rw [he]; rfl), hsum⟩)]
    rw [if_pos hpos]

/-- Witness for ndcg_zero_guard: with a judge that rejects everything the
per-query NDCG of one retrieved chunk is 0, and with a judge that accepts
everything the IDCG of the same query is strictly positive. -/
theorem ndcg_zero_guard_witness :
    ((([(⟨"a"⟩ : Chunk)].take 5).all (fun chunk =>
        !(is_relevant_chunk (fun _ _ => 0) 1 chunk.text ["g"])) = true) ∧
      ndcgForQuery (fun _ _ => 0) 1 5 ⟨[⟨"a"⟩]⟩ ⟨["g"]⟩ = 0) ∧
    ((([(⟨"a"⟩ : Chunk)].take 5).any (fun chunk =>
        is_relevant_chunk (fun _ _ => 1) 0 chunk.text ["g"]) = true) ∧
      0 < dcgSum (List.insertionSort (· ≥ ·)
        (relevanceScores (fun _ _ => 1) 0 5 ⟨[⟨"a"⟩]⟩ ⟨["g"]⟩)) 0) := by
  have h1 : (([(⟨"a"⟩ : Chunk)].take 5).all (fun chunk =>
      !(is_relevant_chunk (fun _ _ => 0) 1 chunk.text ["g"]))) = true := by
    decide
  have h2 : (([(⟨"a"⟩ : Chunk)].take 5).any (fun chunk =>
      is_relevant_chunk (fun _ _ => 1) 0 chunk.text ["g"])) = true := by
    decide
  exact ⟨⟨h1, (ndcg_zero_guard (fun _ _ => 0) 1 5 ⟨[⟨"a"⟩]⟩ ⟨["g"]⟩ [] []).1 h1⟩,
    ⟨h2, ((ndcg_zero_guard (fun _ _ => 1) 0 5 ⟨[⟨"a"⟩]⟩ ⟨["g"]⟩ [] []).2.1 h2).1⟩⟩

set_option maxRecDepth 4000 in
/-- C8.  estimate_cost computes tokens(text) = len(text)/4 per text and
prices the sum of per-chunk context tokens at $0.05 per million and the
answer tokens at $0.08 per million; for 400 context characters and 80 answer
characters it returns exactly (100/1e6)*0.05 + (20/1e6)*0.08 = 0.0000066. -/
theorem estimate_cost_formula (answer : String) (chunks : List Chunk) :
    estimate_cost answer chunks =
      ((chunks.map (fun chunk => (chunk.text.length : ℚ) / 4)).sum / 1000000) * (5 / 100)
        + (((answer.length : ℚ) / 4) / 1000000) * (8 / 100) ∧
    estimate_cost (String.mk (List.replicate 80 'a')) [⟨String.mk (List.replicate 400 'b')⟩]
      = 66 / 10000000 := by
  constructor
  · rfl
  · have h80 : (String.mk (List.replicate 80 'a')).length = 80 := by
      show (List.replicate 80 'a').length = 80
      simp
    have h400 : (String.mk (List.replicate 400 'b')).length = 400 := by
      show (List.replicate 400 'b').length = 400
      simp
    simp only [estimate_cost, estimate_tokens, List.map_cons, List.map_nil,
      List.sum_cons, List.sum_nil, h80, h400]
    norm_num

/-- C10.  calculate_f1_score is symmetric: swapping the generated and
reference strings swaps precision and recall over the case-insensitive
whitespace-token sets, and the harmonic mean is symmetric. -/
theorem f1_score_symmetric (a b : String) :
    calculate_f1_score a b = calculate_f1_score b a := by
  simp only [calculate_f1_score]
  rw [Finset.inter_comm (tokenSet b) (tokenSet a)]
  by_cases h : (tokenSet a).card = 0 ∨ (tokenSet b).card = 0
  · rw [if_pos h, if_pos (Or.symm h)]
  · rw [if_neg h, if_neg (fun hc => h (Or.symm hc))]
    rw [add_comm (((tokenSet a ∩ tokenSet b).card : ℚ) / ((tokenSet b).card : ℚ))
      (((tokenSet a ∩ tokenSet b).card : ℚ) / ((tokenSet a).card : ℚ)),
      mul_comm (((tokenSet a ∩ tokenSet b).card : ℚ) / ((tokenSet b).card : ℚ))
      (((tokenSet a ∩ tokenSet b).card : ℚ) / ((tokenSet a).card : ℚ))]

theorem generatorLoop_characterization (groq_client : String → Option String)
    (sim : String → String → ℚ) (items : List GenItem) :
    generatorLoop groq_client sim items =
      (items.filterMap (fun item =>
         calculate_faithfulness groq_client item.generated_answer item.retrieved_chunks),
       items.map (fun item =>
         calculate_key_facts_coverage item.generated_answer item.key_facts),
       items.map (fun item =>
         calculate_answer_relevance sim item.generated_answer item.query)) := by
  induction items with
  | nil => rfl
  | cons item rest ih =>
    simp only [generatorLoop, ih, List.filterMap_cons, List.map_cons]
    cases calculate_faithfulness groq_client item.generated_answer item.retrieved_chunks <;>
      rfl

theorem endToEndLoop_characterization (groq_client : String → Option String)
    (sim : String → String → ℚ) (items : List E2EItem) :
    endToEndLoop groq_client sim items =
      (items.filterMap (fun item =>
         calculate_context_recall groq_client item.query item.retrieved_chunks
           item.expected_answer),
       items.map (fun item =>
         (calculate_answer_correctness sim item.generated_answer item.expected_answer).1),
       items.map (fun item => item.latency_ms),
       items.map (fun item =>
         estimate_cost item.generated_answer item.retrieved_chunks)) := by
  induction items with
  | nil => rfl
  | cons item rest ih =>
    simp only [endToEndLoop, ih, List.filterMap_cons, List.map_cons]
    cases calculate_context_recall groq_client item.query item.retrieved_chunks
      item.expected_answer <;> rfl

/-- C6.  When the judging collaborator fails for a query (returns none),
that query contributes no faithfulness (resp. context-recall) score: the
score list is exactly the filterMap of the successful judgements, so the
reported average divides by the number of determinate scores only; it is
none (null) rather than 0.0 when every query is indeterminate; and the other
per-query score lists still cover every query of the batch. -/
theorem judge_failure_excluded (groq_client : String → Option String)
    (sim : String → String → ℚ) (items : List GenItem) (e2e_items : List E2EItem) :
    ((generatorLoop groq_client sim items).1 = items.filterMap (fun item =>
        calculate_faithfulness groq_client item.generated_answer item.retrieved_chunks) ∧
     (generatorMetrics groq_client sim items).avg_faithfulness =
       (let det := items.filterMap (fun item =>
          calculate_faithfulness groq_client item.generated_answer item.retrieved_chunks)
        if det.isEmpty then none else some (round3 (det.sum / (det.length : ℚ)))) ∧
     (generatorLoop groq_client sim items).2.1.length = items.length ∧
     (generatorLoop groq_client sim items).2.2.length = items.length) ∧
    ((endToEndLoop groq_client sim e2e_items).1 = e2e_items.filterMap (fun item =>
        calculate_context_recall groq_client item.query item.retrieved_chunks
          item.expected_answer) ∧
     (endToEndMetrics groq_client sim e2e_items).avg_context_recall =
       (let det := e2e_items.filterMap (fun item =>
          calculate_context_recall groq_client item.query item.retrieved_chunks
            item.expected_answer)
        if det.isEmpty then none else some (round3 (det.sum / (det.length : ℚ)))) ∧
     (endToEndLoop groq_client sim e2e_items).2.1.length = e2e_items.length ∧
     (endToEndLoop groq_client sim e2e_items).2.2.1.length = e2e_items.length ∧
     (endToEndLoop groq_client sim e2e_items).2.2.2.length = e2e_items.length) := by
  have hg := generatorLoop_characterization groq_client sim items
  have he := endToEndLoop_characterization groq_client sim e2e_items
  refine ⟨⟨?_, ?_, ?_, ?_⟩, ⟨?_, ?_, ?_, ?_, ?_⟩⟩
  · rw [hg]
  · simp only [generatorMetrics, hg]
  · rw [hg]; simp
  · rw [hg]; simp
  · rw [he]
  · simp only [endToEndMetrics, he]
  · rw [he]; simp
  · rw [he]; simp
  · rw [he]; simp

theorem semanticLoop_partition (similarity_threshold : ℝ) (max_chunk_size : ℕ) :
    ∀ (rest : List (String × List ℝ)) (cur : List String) (cemb : List ℝ),
      cur ≠ [] →
      ∃ runs : List (List String),
        runs.flatten = cur ++ rest.map Prod.fst ∧
        (∀ r ∈ runs, r ≠ []) ∧
        semanticLoop similarity_threshold max_chunk_size rest cur cemb
          = runs.map (joinSep " ") := by
  intro rest
  induction rest with
  | nil =>
    intro cur cemb hcur
    exact ⟨[cur], by simp, by simpa using hcur, by simp [semanticLoop]⟩
  | cons se rest ih =>
    intro cur cemb hcur
    obtain ⟨s, e⟩ := se
    simp only [semanticLoop]
    split
    · obtain ⟨runs, h1, h2, h3⟩ := ih (cur ++ [s]) (meanEmbedding cemb e) (by simp)
      refine ⟨runs, ?_, h2, h3⟩
      rw [h1]
      simp
    · obtain ⟨runs, h1, h2, h3⟩ := ih [s] e (by simp)
      refine ⟨cur :: runs, ?_, ?_, by simp [h3]⟩
      · rw [List.flatten_cons, h1]
        simp
      · intro r hr
        rcases List.mem_cons.mp hr with h | h
        · subst h; exact hcur
        · exact h2 r h

theorem semantic_chunk_partition (sentences : List (String × List ℝ))
    (similarity_threshold : ℝ) (max_chunk_size : ℕ) :
    ∃ runs : List (List String),
      runs.flatten = sentences.map Prod.fst ∧
      (∀ r ∈ runs, r ≠ []) ∧
      semantic_chunk_text sentences similarity_threshold max_chunk_size
        = runs.map (joinSep " ") := by
  match sentences with
  | [] => exact ⟨[], by simp, by simp, rfl⟩
  | [single] => exact ⟨[[single.1]], by simp, by simp, rfl⟩
  | first :: second :: rest =>
    obtain ⟨runs, h1, h2, h3⟩ := semanticLoop_partition similarity_threshold max_chunk_size
      (second :: rest) [first.1] first.2 (by simp)
    refine ⟨runs, ?_, h2, h3⟩
    rw [h1]
    simp

/-- C9.  The chunks returned by semantic_chunk_text partition the
sentence sequence: there is a decomposition of the sentence list into
non-empty consecutive runs whose concatenation, in order, is exactly the
original sentence sequence, and the output chunks are precisely the
space-joins of those runs — no sentence is dropped, duplicated or
reordered. -/
theorem semantic_chunks_partition_sentences (sentences : List (String × List ℝ))
    (similarity_threshold : ℝ) (max_chunk_size : ℕ) :
    ∃ runs : List (List String),
      runs.flatten = sentences.map Prod.fst ∧
      (∀ r ∈ runs, r ≠ []) ∧
      semantic_chunk_text sentences similarity_threshold max_chunk_size
        = runs.map (joinSep " ") :=
  semantic_chunk_partition sentences similarity_threshold max_chunk_size

theorem semanticLoop_eq_amendedLoop (similarity_threshold : ℝ) (max_chunk_size : ℕ) :
    ∀ (rest : List (String × List ℝ)) (cur : List String) (cemb : List ℝ),
      semanticLoop similarity_threshold max_chunk_size rest cur cemb
        = semanticChunkAmendedLoop similarity_threshold max_chunk_size rest cur cemb := by
  intro rest
  induction rest with
  | nil => intro cur cemb; rfl
  | cons se rest ih =>
    intro cur cemb
    obtain ⟨s, e⟩ := se
    simp only [semanticLoop, semanticChunkAmendedLoop]
    by_cases h : similarity_threshold ≤ cosineSimilarity cemb e
        ∧ (joinSep " " cur).length + s.length ≤ max_chunk_size
    · rw [if_pos h, if_pos h, ih]
    · rw [if_neg h, if_neg h, ih]

/-- C3 (amended).  Zero sentences yield no chunks and one sentence
yields that one sentence; with two or more sentences each subsequent
sentence joins the current chunk iff the cosine similarity between its
vector and the running mean vector is at or above the threshold AND the
current chunk text length plus the sentence length — not counting the
joining space — is at most max_chunk_size (so a joined chunk may exceed
max_chunk_size by the space), with the running mean updated to the
unweighted average of the previous mean and the sentence vector; otherwise
the chunk closes and a new one starts with that sentence.  Stated as
equality with the function written from the amended description. -/
theorem semantic_chunk_joins_iff (sentences : List (String × List ℝ))
    (similarity_threshold : ℝ) (max_chunk_size : ℕ) :
    semantic_chunk_text [] similarity_threshold max_chunk_size = [] ∧
    (∀ s e, semantic_chunk_text [(s, e)] similarity_threshold max_chunk_size = [s]) ∧
    semantic_chunk_text sentences similarity_threshold max_chunk_size
      = semanticChunkAmended sentences similarity_threshold max_chunk_size := by
  refine ⟨rfl, fun s e => rfl, ?_⟩
  match sentences with
  | [] => rfl
  | [single] => rfl
  | first :: second :: rest =>
    exact semanticLoop_eq_amendedLoop similarity_threshold max_chunk_size
      (second :: rest) [first.1] first.2

/-- C3 counterexample.  Two 2-character sentences with identical unit
embeddings, threshold 0 and max_chunk_size 4: the source's size test
(2 + 2 <= 4) passes and it emits the single chunk "ab cd" of length 5 > 4,
while the claim's condition (the chunk text after appending may not exceed
max_chunk_size) demands the split into two chunks. -/
theorem semantic_chunk_size_cex :
    semantic_chunk_text [("ab", [1]), ("cd", [1])] 0 4 = ["ab cd"] ∧
    semanticChunkClaim [("ab", [1]), ("cd", [1])] 0 4 = ["ab", "cd"] ∧
    semantic_chunk_text [("ab", [1]), ("cd", [1])] 0 4
      ≠ semanticChunkClaim [("ab", [1]), ("cd", [1])] 0 4 ∧
    ("ab cd" : String).length = 5 := by
  have hsim : cosineSimilarity [1] [1] = 1 := by
    norm_num [cosineSimilarity, dotProduct, Real.sqrt_one]
  have h1 : semantic_chunk_text [("ab", [1]), ("cd", [1])] 0 4 = ["ab cd"] := by
    show semanticLoop 0 4 [("cd", [1])] ["ab"] [1] = ["ab cd"]
    simp only [semanticLoop]
    rw [if_pos ⟨by rw [hsim]; norm_num, by decide⟩]
    rfl
  have h2 : semanticChunkClaim [("ab", [1]), ("cd", [1])] 0 4 = ["ab", "cd"] := by
    show semanticChunkClaimLoop 0 4 [("cd", [1])] ["ab"] [1] = ["ab", "cd"]
    simp only [semanticChunkClaimLoop]
    rw [if_neg (fun hc => absurd hc.2 (by decide))]
    rfl
  exact ⟨h1, h2, by rw [h1, h2]; decide, by decide⟩

theorem joinSep_singleton (sep s : String) : joinSep sep [s] = s := rfl

theorem sentenceSplitLoop_blocked (max_chunk_size : ℕ) (x : String) :
    ∀ (sents : List String) (tlen : ℕ), max_chunk_size < tlen →
      x ∈ (sentenceSplitLoop max_chunk_size sents [x] tlen).1 ∨
        ((sentenceSplitLoop max_chunk_size sents [x] tlen).2.1 = [x] ∧
         (sentenceSplitLoop max_chunk_size sents [x] tlen).2.2 = tlen) := by
  intro sents
  induction sents with
  | nil => intro tlen _; right; exact ⟨rfl, rfl⟩
  | cons s rest ih =>
    intro tlen h
    simp only [sentenceSplitLoop]
    rw [if_neg (by omega)]
    left
    simp [joinSep_singleton]

theorem sentenceSplitLoop_oversized (max_chunk_size : ℕ) (sent : String)
    (hlen : max_chunk_size < sent.length) :
    ∀ (sents : List String) (temp : List String) (tlen : ℕ), sent ∈ sents →
      sent ∈ (sentenceSplitLoop max_chunk_size sents temp tlen).1 ∨
        ((sentenceSplitLoop max_chunk_size sents temp tlen).2.1 = [sent] ∧
         (sentenceSplitLoop max_chunk_size sents temp tlen).2.2 = sent.length) := by
  intro sents
  induction sents with
  | nil => intro _ _ h; cases h
  | cons s rest ih =>
    intro temp tlen hmem
    rcases List.mem_cons.mp hmem with heq | hmem'
    · subst heq
      simp only [sentenceSplitLoop]
      rw [if_neg (by omega)]
      rcases sentenceSplitLoop_blocked max_chunk_size sent rest sent.length hlen with h | h
      · left
        simp only [List.mem_append]
        exact Or.inr h
      · right
        exact h
    · simp only [sentenceSplitLoop]
      split
    -- the sentence joins temp: recurse on the tail
      · exact ih (temp ++ [s]) (tlen + s.length + 1) hmem'
      · rcases ih [s] s.length hmem' with h | h
        · left
          simp only [List.mem_append]
          exact Or.inr h
        · right
          exact h

theorem mergeParagraphLoop_blocked (max_chunk_size : ℕ) (x : String) :
    ∀ (paras : List String) (clen : ℕ), max_chunk_size < clen →
      x ∈ mergeParagraphLoop max_chunk_size paras [x] clen := by
  intro paras
  cases paras with
  | nil =>
    intro clen _
    simp [mergeParagraphLoop, joinSep_singleton]
  | cons p rest =>
    intro clen h
    simp only [mergeParagraphLoop]
    rw [if_neg (by omega)]
    split <;> simp [joinSep_singleton]

theorem mergeParagraphLoop_oversized (max_chunk_size : ℕ) (para sent : String)
    (hp : max_chunk_size < para.length) (hsent : sent ∈ splitSentences para)
    (hlen : max_chunk_size < sent.length) :
    ∀ (paras : List String) (cur : List String) (clen : ℕ), para ∈ paras →
      sent ∈ mergeParagraphLoop max_chunk_size paras cur clen := by
  intro paras
  induction paras with
  | nil => intro _ _ h; cases h
  | cons p rest ih =>
    intro cur clen hmem
    rcases List.mem_cons.mp hmem with heq | hmem'
    · subst heq
      simp only [mergeParagraphLoop]
      rw [if_neg (by omega), if_pos hp]
      rcases sentenceSplitLoop_oversized max_chunk_size sent hlen
          (splitSentences para) [] 0 hsent with h | ⟨ht, htl⟩
      · simp only [List.mem_append]
        exact Or.inl (Or.inr h)
      · rw [ht, htl]
        simp only [List.mem_append]
        refine Or.inr ?_
        rw [if_neg (by simp)]
        exact mergeParagraphLoop_blocked max_chunk_size sent rest sent.length hlen
    · simp only [mergeParagraphLoop]
      split
      · exact ih _ _ hmem'
      · split
        · simp only [List.mem_append]
          refine Or.inr ?_
          split
          · exact ih [] 0 hmem'
          · exact ih _ _ hmem'
        · simp only [List.mem_append]
          exact Or.inr (ih [p] p.length hmem')

theorem noMergeLoop_oversized (max_chunk_size : ℕ) (para sent : String)
    (hp : max_chunk_size < para.length) (hsent : sent ∈ splitSentences para)
    (hlen : max_chunk_size < sent.length) :
    ∀ paras : List String, para ∈ paras →
      sent ∈ noMergeLoop max_chunk_size paras := by
  intro paras
  induction paras with
  | nil => intro h; cases h
  | cons p rest ih =>
    intro hmem
    rcases List.mem_cons.mp hmem with heq | hmem'
    · subst heq
      simp only [noMergeLoop]
      rw [if_neg (by omega)]
      rcases sentenceSplitLoop_oversized max_chunk_size sent hlen
          (splitSentences para) [] 0 hsent with h | ⟨ht, _⟩
      · simp only [List.mem_append]
        exact Or.inl (Or.inl h)
      · rw [ht]
        simp [joinSep_singleton]
    · simp only [noMergeLoop]
      split
      · exact List.mem_cons_of_mem p (ih hmem')
      · simp only [List.mem_append]
        exact Or.inr (ih hmem')

/-- C5.  An atomic sentence longer than max_chunk_size is still emitted
in full.  Paragraph-merge chunker: for any input text, any of its cleaned
paragraphs exceeding max_chunk_size, and any sentence of that paragraph
exceeding max_chunk_size, the sentence itself appears as one of the emitted
chunks, with merging enabled or disabled.  Semantic chunker: any sentence
longer than max_chunk_size appears in full inside one of the emitted chunks
(every chunk being a space-join of a run of sentences containing it).  Both
functions are total, so no error is raised. -/
theorem oversized_sentence_kept (max_chunk_size : ℕ) :
    (∀ (text : String) (merge_small_paragraphs : Bool) (min_paragraph_size : ℕ)
       (para sent : String),
        para ∈ cleanParagraphs text → max_chunk_size < para.length →
        sent ∈ splitSentences para → max_chunk_size < sent.length →
        sent ∈ paragraph_chunk_text text max_chunk_size merge_small_paragraphs
          min_paragraph_size) ∧
    (∀ (sentences : List (String × List ℝ)) (similarity_threshold : ℝ)
       (s : String) (e : List ℝ), (s, e) ∈ sentences → max_chunk_size < s.length →
        ∃ pre post, joinSep " " (pre ++ s :: post)
          ∈ semantic_chunk_text sentences similarity_threshold max_chunk_size) := by
  constructor
  · intro text merge minp para sent hpara hp hsent hlen
    unfold paragraph_chunk_text
    rw [if_neg (by simp only [List.isEmpty_iff]; exact List.ne_nil_of_mem hpara)]
    cases merge with
    | false =>
      rw [if_neg (by simp)]
      exact noMergeLoop_oversized max_chunk_size para sent hp hsent hlen _ hpara
    | true =>
      rw [if_pos rfl]
      exact mergeParagraphLoop_oversized max_chunk_size para sent hp hsent hlen _ [] 0 hpara
  · intro sents thr s e hmem hlen
    obtain ⟨runs, h1, h2, h3⟩ := semantic_chunk_partition sents thr max_chunk_size
    have hs : s ∈ runs.flatten := by
      rw [h1]
      exact List.mem_map.mpr ⟨(s, e), hmem, rfl⟩
    obtain ⟨run, hrun, hsrun⟩ := List.mem_flatten.mp hs
    obtain ⟨pre, post, hdecomp⟩ := List.append_of_mem hsrun
    refine ⟨pre, post, ?_⟩
    rw [h3]
    exact List.mem_map.mpr ⟨run, hrun, by rw [hdecomp]⟩

/-- Witness for oversized_sentence_kept at max_chunk_size 5: in the page
text "One. Toolong." the 8-character sentence "Toolong." survives paragraph
chunking, and a lone 8-character sentence survives semantic chunking. -/
theorem oversized_sentence_kept_witness :
    ("One. Toolong." ∈ cleanParagraphs "One. Toolong." ∧
     5 < ("One. Toolong." : String).length ∧
     "Toolong." ∈ splitSentences "One. Toolong." ∧
     5 < ("Toolong." : String).length ∧
     "Toolong." ∈ paragraph_chunk_text "One. Toolong." 5 true 100) ∧
    (("Toolong!", ([1] : List ℝ)) ∈ [("Toolong!", ([1] : List ℝ))] ∧
     5 < ("Toolong!" : String).length ∧
     ∃ pre post, joinSep " " (pre ++ "Toolong!" :: post)
       ∈ semantic_chunk_text [("Toolong!", [1])] 0 5) := by
  have hp : "One. Toolong." ∈ cleanParagraphs "One. Toolong." := by decide
  have hs : "Toolong." ∈ splitSentences "One. Toolong." := by decide
  refine ⟨⟨hp, by decide, hs, by decide, ?_⟩, by simp, by decide, ?_⟩
  · exact (oversized_sentence_kept 5).1 "One. Toolong." true 100 "One. Toolong."
      "Toolong." hp (by decide) hs (by decide)
  · exact (oversized_sentence_kept 5).2 [("Toolong!", [1])] 0 "Toolong!" [1]
      (by simp) (by decide)

theorem lookup_isSome_iff {β : Type} (c : String) :
    ∀ l : List (String × β), (l.lookup c).isSome ↔ c ∈ l.map Prod.fst := by
  intro l
  induction l with
  | nil => simp [List.lookup]
  | cons p rest ih =>
    obtain ⟨k, v⟩ := p
    by_cases h : c = k
    · subst h; simp [List.lookup]
    · have hb : (c == k) = false := beq_eq_false_iff_ne.mpr h
      simp [List.lookup, hb, ih, h]

theorem mem_dfColumnsUnion (rows : List AggRow) (c : String) :
    c ∈ dfColumnsUnion rows ↔ ∃ r ∈ rows, c ∈ r.map Prod.fst := by
  have key : ∀ (rs : List AggRow) (acc : List String),
      c ∈ rs.foldl (fun acc row =>
        acc ++ (row.map Prod.fst).filter (fun k => !acc.contains k)) acc ↔
        c ∈ acc ∨ ∃ r ∈ rs, c ∈ r.map Prod.fst := by
    intro rs
    induction rs with
    | nil => intro acc; simp
    | cons r rest ih =>
      intro acc
      rw [List.foldl_cons, ih]
      constructor
      · rintro (h | h)
        · rcases List.mem_append.mp h with h' | h'
          · exact Or.inl h'
          · exact Or.inr ⟨r, List.mem_cons_self r rest, (List.mem_filter.mp h').1⟩
        · obtain ⟨r', hr', hc⟩ := h
          exact Or.inr ⟨r', List.mem_cons_of_mem r hr', hc⟩
      · rintro (h | ⟨r', hr', hc⟩)
        · exact Or.inl (List.mem_append.mpr (Or.inl h))
        · rcases List.mem_cons.mp hr' with heq | hmem
          · subst heq
            by_cases hacc : c ∈ acc
            · exact Or.inl (List.mem_append.mpr (Or.inl hacc))
            · refine Or.inl (List.mem_append.mpr (Or.inr ?_))
              refine List.mem_filter.mpr ⟨hc, ?_⟩
              simpa [List.elem_iff] using hacc
          · exact Or.inr ⟨r', hmem, hc⟩
  simpa [dfColumnsUnion] using key rows []

theorem existingCols_characterization (rows : List AggRow) :
    existingCols rows
      = column_order.filter (fun c => rows.any (fun r => (r.lookup c).isSome)) := by
  unfold existingCols
  apply List.filter_congr
  intro c _
  rw [Bool.eq_iff_iff]
  simp only [List.elem_iff, List.any_eq_true]
  rw [mem_dfColumnsUnion]
  constructor
  · rintro ⟨r, hr, hc⟩
    exact ⟨r, hr, (lookup_isSome_iff c r).mpr hc⟩
  · rintro ⟨r, hr, hc⟩
    exact ⟨r, hr, (lookup_isSome_iff c r).mp hc⟩

theorem getCell_absent_generator (a : Artifact) (hg : a.metrics.generator = none) :
    getCell (buildRow a) "avg_faithfulness" = none ∧
    getCell (buildRow a) "avg_key_facts_coverage" = none ∧
    getCell (buildRow a) "avg_answer_relevance" = none := by
  cases hr : a.metrics.retriever <;> cases he : a.metrics.end_to_end <;>
    simp [getCell, buildRow, hr, hg, he, List.lookup]

theorem getCell_absent_retriever (a : Artifact) (hret : a.metrics.retriever = none) :
    getCell (buildRow a) "hit_rate" = none ∧
    getCell (buildRow a) "avg_recall" = none ∧
    getCell (buildRow a) "avg_ndcg" = none ∧
    getCell (buildRow a) "mrr" = none ∧
    getCell (buildRow a) "map" = none := by
  cases hg : a.metrics.generator <;> cases he : a.metrics.end_to_end <;>
    simp [getCell, buildRow, hret, hg, he, List.lookup]

theorem getCell_absent_e2e (a : Artifact) (he : a.metrics.end_to_end = none) :
    getCell (buildRow a) "avg_context_recall" = none ∧
    getCell (buildRow a) "avg_answer_correctness" = none ∧
    getCell (buildRow a) "avg_latency_ms" = none ∧
    getCell (buildRow a) "min_latency_ms" = none ∧
    getCell (buildRow a) "max_latency_ms" = none ∧
    getCell (buildRow a) "p95_latency_ms" = none ∧
    getCell (buildRow a) "p99_latency_ms" = none ∧
    getCell (buildRow a) "estimated_cost_per_query" = none := by
  cases hr : a.metrics.retriever <;> cases hg : a.metrics.generator <;>
    simp [getCell, buildRow, hr, hg, he, List.lookup]

/-- C7 (amended).  Given N parsed artifacts (N >= 1), the aggregator
produces exactly N rows, one per artifact in order, flattening the config
and each present metric group.  The columns appear in the fixed relative
order of column_order, but restricted to the keys present in at least one
artifact's row: the config columns and source_file always appear, and a
metric group's columns appear iff some artifact contains that group —
a group absent from every artifact is dropped from the schema rather than
rendered as null.  A metric group absent from one artifact but present in
another renders as null cells in the absent artifact's row. -/
theorem aggregator_rows_and_schema (artifacts : List Artifact) (h : artifacts ≠ []) :
    ∃ cols rows, load_experiment_results artifacts = some (cols, rows) ∧
      rows.length = artifacts.length ∧
      rows = artifacts.map buildRow ∧
      cols = column_order.filter (fun c =>
        artifacts.any (fun a => ((buildRow a).lookup c).isSome)) ∧
      cols.Sublist column_order ∧
      (∀ a ∈ artifacts, a.metrics.generator = none →
        getCell (buildRow a) "avg_faithfulness" = none ∧
        getCell (buildRow a) "avg_key_facts_coverage" = none ∧
        getCell (buildRow a) "avg_answer_relevance" = none) ∧
      (∀ a ∈ artifacts, a.metrics.retriever = none →
        getCell (buildRow a) "hit_rate" = none ∧
        getCell (buildRow a) "avg_recall" = none ∧
        getCell (buildRow a) "avg_ndcg" = none ∧
        getCell (buildRow a) "mrr" = none ∧
        getCell (buildRow a) "map" = none) ∧
      (∀ a ∈ artifacts, a.metrics.end_to_end = none →
        getCell (buildRow a) "avg_context_recall" = none ∧
        getCell (buildRow a) "avg_answer_correctness" = none ∧
        getCell (buildRow a) "avg_latency_ms" = none ∧
        getCell (buildRow a) "min_latency_ms" = none ∧
        getCell (buildRow a) "max_latency_ms" = none ∧
        getCell (buildRow a) "p95_latency_ms" = none ∧
        getCell (buildRow a) "p99_latency_ms" = none ∧
        getCell (buildRow a) "estimated_cost_per_query" = none) := by
  refine ⟨existingCols (artifacts.map buildRow), artifacts.map buildRow, ?_, by simp,
    rfl, ?_, ?_, ?_, ?_, ?_⟩
  · unfold load_experiment_results
    rw [if_neg (by simpa [List.isEmpty_iff] using h)]
  · rw [existingCols_characterization]
    congr 1
    funext c
    rw [Bool.eq_iff_iff]
    simp only [List.any_eq_true, List.mem_map]
    constructor
    · rintro ⟨r, ⟨a, ha, rfl⟩, hs⟩
      exact ⟨a, ha, hs⟩
    · rintro ⟨a, ha, hs⟩
      exact ⟨buildRow a, ⟨a, ha, rfl⟩, hs⟩
  · rw [existingCols_characterization]
    exact List.filter_sublist column_order
  · intro a _ hg
    exact getCell_absent_generator a hg
  · intro a _ hret
    exact getCell_absent_retriever a hret
  · intro a _ he
    exact getCell_absent_e2e a he

/-- A sample artifact carrying only the retriever metric group, used to
instantiate the aggregator theorems. -/
def aggSampleArtifact : Artifact :=
  { config :=
      { strategy := some "semantic_based"
        top_k := some 5
        search_type := some "hybrid"
        threshold := some 1
        total_questions := some 20 }
    metrics :=
      { retriever := some
          { hit_rate := some 1
            avg_recall := some 1
            avg_ndcg := some 1
            mrr := some 1
            map := some 1 }
        generator := none
        end_to_end := none }
    source_file := "exp.json" }

/-- Witness for aggregator_rows_and_schema on the one-artifact list. -/
theorem aggregator_rows_and_schema_witness :
    ([aggSampleArtifact] ≠ []) ∧
    (∃ cols rows, load_experiment_results [aggSampleArtifact] = some (cols, rows) ∧
      rows.length = ([aggSampleArtifact] : List Artifact).length ∧
      rows = [aggSampleArtifact].map buildRow ∧
      cols = column_order.filter (fun c =>
        [aggSampleArtifact].any (fun a => ((buildRow a).lookup c).isSome)) ∧
      cols.Sublist column_order ∧
      (∀ a ∈ [aggSampleArtifact], a.metrics.generator = none →
        getCell (buildRow a) "avg_faithfulness" = none ∧
        getCell (buildRow a) "avg_key_facts_coverage" = none ∧
        getCell (buildRow a) "avg_answer_relevance" = none) ∧
      (∀ a ∈ [aggSampleArtifact], a.metrics.retriever = none →
        getCell (buildRow a) "hit_rate" = none ∧
        getCell (buildRow a) "avg_recall" = none ∧
        getCell (buildRow a) "avg_ndcg" = none ∧
        getCell (buildRow a) "mrr" = none ∧
        getCell (buildRow a) "map" = none) ∧
      (∀ a ∈ [aggSampleArtifact], a.metrics.end_to_end = none →
        getCell (buildRow a) "avg_context_recall" = none ∧
        getCell (buildRow a) "avg_answer_correctness" = none ∧
        getCell (buildRow a) "avg_latency_ms" = none ∧
        getCell (buildRow a) "min_latency_ms" = none ∧
        getCell (buildRow a) "max_latency_ms" = none ∧
        getCell (buildRow a) "p95_latency_ms" = none ∧
        getCell (buildRow a) "p99_latency_ms" = none ∧
        getCell (buildRow a) "estimated_cost_per_query" = none)) :=
  ⟨by simp, aggregator_rows_and_schema [aggSampleArtifact] (by simp)⟩

/-- C7 counterexample.  A single artifact carrying only retriever
metrics: the output schema omits the generator and end-to-end columns
entirely instead of rendering them as null cells, so the column schema is
not fixed regardless of which metric groups the artifacts contain. -/
theorem aggregator_fixed_schema_cex :
    (load_experiment_results [aggSampleArtifact]).map Prod.fst =
      some ["strategy", "top_k", "search_type", "threshold",
        "hit_rate", "avg_recall", "avg_ndcg", "mrr", "map",
        "total_questions", "source_file"] ∧
    "avg_faithfulness" ∈ column_order ∧
    (load_experiment_results [aggSampleArtifact]).map Prod.fst ≠ some column_order := by
  refine ⟨by decide, by decide, by decide⟩
